import Mathlib

/-!
Verification of the domain-coloring plotter (christianparpart/plotter).

The development shallowly embeds the core of the program:
* the data model (ImageSize, Point, RGBColor, HSVColor),
* the Canvas (flat byte buffer with bounds-checked write),
* the ColorModel (hsv2rgb with the 360-wraparound and the achromatic
  short-circuit, over exact rationals in place of IEEE doubles),
* the FunctionSampler pieces (magnitude shading, gridlines with the
  NaN/Inf guard, phase-angle hue), and
* the Rasterizer's pixel-to-plane coordinate mapping.

Doubles are idealised as exact rationals (ℚ) where the code only uses
field arithmetic, comparisons, floor and truncation; the transcendental
library calls (sin, pow, atan2) are taken as parameters, and the IEEE
special values NaN/±Inf are modelled explicitly by the Fl type where the
code tests for them.  C int values are modelled as ℤ.
-/

namespace Plotter

/-! ## Data model (main.cpp: ImageSize, Point, RGBColor) -/

structure ImageSize where
  width : Int
  height : Int
deriving Repr, DecidableEq

/-- area() = static_cast&lt;size_t&gt;(width) * static_cast&lt;size_t&gt;(height);
sizes in every claim are positive ints, so the size_t casts are toNat. -/
def ImageSize.area (s : ImageSize) : Nat :=
  s.width.toNat * s.height.toNat

structure Point where
  x : Int
  y : Int
deriving Repr, DecidableEq

structure RGBColor where
  red : Nat
  green : Nat
  blue : Nat
deriving Repr, DecidableEq

/-! ## Canvas (main.cpp: RGBCanvas; part_000: Canvas) -/

structure RGBCanvas where
  size : ImageSize
  pixels : List Nat
deriving Repr, DecidableEq

/-- RGBCanvas(ImageSize): pixels.resize(size.area() * 3) then fill with 0xFF. -/
def RGBCanvas.ofSize (size : ImageSize) : RGBCanvas :=
  { size := size, pixels := List.replicate (size.area * 3) 0xFF }

/-- RGBCanvas::write: early return when the point is out of bounds, otherwise
store the three channels at byte offset p.y * width * 3 + p.x * 3. -/
def RGBCanvas.write (c : RGBCanvas) (p : Point) (color : RGBColor) : RGBCanvas :=
  if 0 ≤ p.x ∧ p.x < c.size.width ∧ 0 ≤ p.y ∧ p.y < c.size.height then
    let off : Nat := (p.y * c.size.width * 3 + p.x * 3).toNat
    { c with
      pixels := ((c.pixels.set off color.red).set (off + 1) color.green).set (off + 2) color.blue }
  else
    c

/-- C3: for a canvas whose buffer has the invariant length W*H*3 and an
in-bounds coordinate, write changes exactly the 3 bytes at offset
(y*W + x)*3 to red, green, blue in that order and leaves every other byte
unchanged. -/
theorem write_inbounds_effect (c : RGBCanvas) (p : Point) (col : RGBColor)
    (hlen : c.pixels.length = c.size.area * 3)
    (hx0 : 0 ≤ p.x) (hxw : p.x < c.size.width)
    (hy0 : 0 ≤ p.y) (hyh : p.y < c.size.height) :
    (c.write p col).pixels.length = c.pixels.length ∧
    (c.write p col).pixels[(p.y.toNat * c.size.width.toNat + p.x.toNat) * 3]? = some col.red ∧
    (c.write p col).pixels[(p.y.toNat * c.size.width.toNat + p.x.toNat) * 3 + 1]? = some col.green ∧
    (c.write p col).pixels[(p.y.toNat * c.size.width.toNat + p.x.toNat) * 3 + 2]? = some col.blue ∧
    ∀ i : Nat,
      i ≠ (p.y.toNat * c.size.width.toNat + p.x.toNat) * 3 →
      i ≠ (p.y.toNat * c.size.width.toNat + p.x.toNat) * 3 + 1 →
      i ≠ (p.y.toNat * c.size.width.toNat + p.x.toNat) * 3 + 2 →
      (c.write p col).pixels[i]? = c.pixels[i]? := by
  obtain ⟨xn, hxn⟩ : ∃ n : ℕ, p.x = (n : Int) := ⟨p.x.toNat, (Int.toNat_of_nonneg hx0).symm⟩
  obtain ⟨yn, hyn⟩ : ∃ n : ℕ, p.y = (n : Int) := ⟨p.y.toNat, (Int.toNat_of_nonneg hy0).symm⟩
  obtain ⟨Wn, hWn⟩ : ∃ n : ℕ, c.size.width = (n : Int) :=
    ⟨c.size.width.toNat, (Int.toNat_of_nonneg (le_trans hx0 (le_of_lt hxw))).symm⟩
  obtain ⟨Hn, hHn⟩ : ∃ n : ℕ, c.size.height = (n : Int) :=
    ⟨c.size.height.toNat, (Int.toNat_of_nonneg (le_trans hy0 (le_of_lt hyh))).symm⟩
  have hxW : xn < Wn := by rw [hxn, hWn] at hxw; exact_mod_cast hxw
  have hyH : yn < Hn := by rw [hyn, hHn] at hyh; exact_mod_cast hyh
  have harea : c.size.area = Wn * Hn := by
    unfold ImageSize.area; rw [hWn, hHn, Int.toNat_natCast, Int.toNat_natCast]
  have hofftn : (p.y * c.size.width * 3 + p.x * 3).toNat = yn * Wn * 3 + xn * 3 := by
    rw [hxn, hyn, hWn]
    have hcast : ((yn : Int) * Wn * 3 + xn * 3) = ((yn * Wn * 3 + xn * 3 : ℕ) : Int) := by
      push_cast; ring
    rw [hcast, Int.toNat_natCast]
  have hoffg : (p.y.toNat * c.size.width.toNat + p.x.toNat) * 3 = yn * Wn * 3 + xn * 3 := by
    rw [hxn, hyn, hWn, Int.toNat_natCast, Int.toNat_natCast, Int.toNat_natCast]; ring
  have hbound : yn * Wn * 3 + xn * 3 + 2 < c.pixels.length := by
    rw [hlen, harea]
    have h1 : yn * Wn + xn + 1 ≤ Hn * Wn := by
      calc yn * Wn + xn + 1 ≤ yn * Wn + Wn := by omega
        _ = (yn + 1) * Wn := by ring
        _ ≤ Hn * Wn := Nat.mul_le_mul_right _ (by omega)
    calc yn * Wn * 3 + xn * 3 + 2 < (yn * Wn + xn + 1) * 3 := by ring_nf; omega
      _ ≤ Hn * Wn * 3 := by omega
      _ = Wn * Hn * 3 := by ring
  have hcond : 0 ≤ p.x ∧ p.x < c.size.width ∧ 0 ≤ p.y ∧ p.y < c.size.height :=
    ⟨hx0, hxw, hy0, hyh⟩
  unfold RGBCanvas.write
  rw [if_pos hcond]
  simp only [hofftn, hoffg]
  set l := c.pixels with hl
  set o := yn * Wn * 3 + xn * 3 with ho
  have hlen1 : (l.set o col.red).length = l.length := List.length_set l o col.red
  have hlen2 : ((l.set o col.red).set (o + 1) col.green).length = l.length := by
    rw [List.length_set, hlen1]
  have hlen3 :
      (((l.set o col.red).set (o + 1) col.green).set (o + 2) col.blue).length = l.length := by
    rw [List.length_set, hlen2]
  refine ⟨hlen3, ?_, ?_, ?_, ?_⟩
  · rw [List.getElem?_set_ne (by omega), List.getElem?_set_ne (by omega),
      List.getElem?_set_self (by omega)]
  · rw [List.getElem?_set_ne (by omega), List.getElem?_set_self (by rw [hlen1]; omega)]
  · rw [List.getElem?_set_self (by rw [hlen2]; omega)]
  · intro i hi0 hi1 hi2
    rw [List.getElem?_set_ne (by omega), List.getElem?_set_ne (by omega),
      List.getElem?_set_ne (by omega)]

/-- Witness for C3 at a concrete canvas: size 2×2, pixel (1,0), color (1,2,3). -/
theorem write_inbounds_effect_witness :
    (RGBCanvas.ofSize ⟨2, 2⟩).pixels.length = (RGBCanvas.ofSize ⟨2, 2⟩).size.area * 3 ∧
    (0 : Int) ≤ (Point.mk 1 0).x ∧ (Point.mk 1 0).x < (2 : Int) ∧
    (0 : Int) ≤ (Point.mk 1 0).y ∧ (Point.mk 1 0).y < (2 : Int) ∧
    (((RGBCanvas.ofSize ⟨2, 2⟩).write ⟨1, 0⟩ ⟨1, 2, 3⟩).pixels.length =
      (RGBCanvas.ofSize ⟨2, 2⟩).pixels.length ∧
     ((RGBCanvas.ofSize ⟨2, 2⟩).write ⟨1, 0⟩ ⟨1, 2, 3⟩).pixels[
       ((Point.mk 1 0).y.toNat * (RGBCanvas.ofSize ⟨2, 2⟩).size.width.toNat +
         (Point.mk 1 0).x.toNat) * 3]? = some 1 ∧
     ((RGBCanvas.ofSize ⟨2, 2⟩).write ⟨1, 0⟩ ⟨1, 2, 3⟩).pixels[
       ((Point.mk 1 0).y.toNat * (RGBCanvas.ofSize ⟨2, 2⟩).size.width.toNat +
         (Point.mk 1 0).x.toNat) * 3 + 1]? = some 2 ∧
     ((RGBCanvas.ofSize ⟨2, 2⟩).write ⟨1, 0⟩ ⟨1, 2, 3⟩).pixels[
       ((Point.mk 1 0).y.toNat * (RGBCanvas.ofSize ⟨2, 2⟩).size.width.toNat +
         (Point.mk 1 0).x.toNat) * 3 + 2]? = some 3 ∧
     ∀ i : Nat,
       i ≠ ((Point.mk 1 0).y.toNat * (RGBCanvas.ofSize ⟨2, 2⟩).size.width.toNat +
         (Point.mk 1 0).x.toNat) * 3 →
       i ≠ ((Point.mk 1 0).y.toNat * (RGBCanvas.ofSize ⟨2, 2⟩).size.width.toNat +
         (Point.mk 1 0).x.toNat) * 3 + 1 →
       i ≠ ((Point.mk 1 0).y.toNat * (RGBCanvas.ofSize ⟨2, 2⟩).size.width.toNat +
         (Point.mk 1 0).x.toNat) * 3 + 2 →
       ((RGBCanvas.ofSize ⟨2, 2⟩).write ⟨1, 0⟩ ⟨1, 2, 3⟩).pixels[i]? =
         (RGBCanvas.ofSize ⟨2, 2⟩).pixels[i]?) :=
  ⟨by decide, by decide, by decide, by decide, by decide,
    write_inbounds_effect (RGBCanvas.ofSize ⟨2, 2⟩) ⟨1, 0⟩ ⟨1, 2, 3⟩
      (by decide) (by decide) (by decide) (by decide) (by decide)⟩

/-- C4: out-of-bounds write is a silent no-op; every byte of the buffer is
unchanged (indeed the whole canvas is returned unchanged). -/
theorem write_out_of_bounds_noop (c : RGBCanvas) (p : Point) (col : RGBColor)
    (hout : p.x < 0 ∨ c.size.width ≤ p.x ∨ p.y < 0 ∨ c.size.height ≤ p.y) :
    c.write p col = c ∧ (c.write p col).pixels = c.pixels := by
  have hcond : ¬(0 ≤ p.x ∧ p.x < c.size.width ∧ 0 ≤ p.y ∧ p.y < c.size.height) := by
    rcases hout with h | h | h | h <;> intro hc <;> rcases hc with ⟨h1, h2, h3, h4⟩ <;> omega
  unfold RGBCanvas.write
  rw [if_neg hcond]
  exact ⟨rfl, rfl⟩

/-- Witness for C4 at a concrete canvas: size 2×2, pixel (-1, 0). -/
theorem write_out_of_bounds_noop_witness :
    ((Point.mk (-1) 0).x < 0 ∨ (2 : Int) ≤ (Point.mk (-1) 0).x ∨
      (Point.mk (-1) 0).y < 0 ∨ (2 : Int) ≤ (Point.mk (-1) 0).y) ∧
    ((RGBCanvas.ofSize ⟨2, 2⟩).write ⟨-1, 0⟩ ⟨1, 2, 3⟩ = RGBCanvas.ofSize ⟨2, 2⟩ ∧
     ((RGBCanvas.ofSize ⟨2, 2⟩).write ⟨-1, 0⟩ ⟨1, 2, 3⟩).pixels =
       (RGBCanvas.ofSize ⟨2, 2⟩).pixels) :=
  ⟨Or.inl (by decide),
    write_out_of_bounds_noop (RGBCanvas.ofSize ⟨2, 2⟩) ⟨-1, 0⟩ ⟨1, 2, 3⟩ (Or.inl (by decide))⟩

/-- C5: a freshly constructed canvas with positive width and height owns a
buffer of exactly W*H*3 bytes, all equal to 255 (white fill). -/
theorem ofSize_white_fill (s : ImageSize) (hw : 0 < s.width) (hh : 0 < s.height) :
    (RGBCanvas.ofSize s).pixels.length = s.width.toNat * s.height.toNat * 3 ∧
    ∀ b ∈ (RGBCanvas.ofSize s).pixels, b = 255 := by
  constructor
  · unfold RGBCanvas.ofSize ImageSize.area
    exact List.length_replicate _ _
  · intro b hb
    unfold RGBCanvas.ofSize at hb
    exact (List.mem_replicate.mp hb).2

/-- Witness for C5 at the concrete size 2×3. -/
theorem ofSize_white_fill_witness :
    (0 : Int) < 2 ∧ (0 : Int) < 3 ∧
    ((RGBCanvas.ofSize ⟨2, 3⟩).pixels.length =
      (ImageSize.mk 2 3).width.toNat * (ImageSize.mk 2 3).height.toNat * 3 ∧
     ∀ b ∈ (RGBCanvas.ofSize ⟨2, 3⟩).pixels, b = 255) :=
  ⟨by decide, by decide, ofSize_white_fill ⟨2, 3⟩ (by decide) (by decide)⟩

/-! ## ColorModel (main.cpp: domain_value, HSVColor, hsv2rgb)

The hue field has type degree&lt;double&gt; (clamped to [0,360] on every
construction and assignment), saturation and value have type norm&lt;double&gt;
(clamped to [0,1]).  hsv2rgb's arithmetic is done on the raw extracted
doubles, modelled here as exact rationals. -/

/-- std::clamp(v, lo, hi). -/
def clampD (lo hi v : ℚ) : ℚ :=
  if v < lo then lo else if hi < v then hi else v

/-- degree&lt;double&gt; construction/assignment clamp. -/
def clampDeg (v : ℚ) : ℚ := clampD 0 360 v

/-- norm&lt;double&gt; construction/assignment clamp. -/
def clamp01 (v : ℚ) : ℚ := clampD 0 1 v

structure HSVColor where
  hue : ℚ
  saturation : ℚ
  value : ℚ
deriving Repr, DecidableEq

/-- HSVColor construction: each field goes through its domain_value clamp. -/
def mkHSVColor (h s v : ℚ) : HSVColor :=
  { hue := clampDeg h, saturation := clamp01 s, value := clamp01 v }

/-- trunc(x) of the C library: rounding toward zero. -/
def qtrunc (x : ℚ) : Int :=
  if 0 ≤ x then ⌊x⌋ else ⌈x⌉

/-- static_cast&lt;unsigned char&gt;(x * 255.0): truncation toward zero (all
values produced by the conversion lie in [0,255], so no wrap occurs). -/
def toByte (x : ℚ) : Nat := (qtrunc (x * 255)).toNat

/-- The hue normalisation at the top of hsv2rgb's chromatic branch:
if hue == 360 assign 0 else assign hue / 60, each assignment clamped by
the degree domain_value. -/
def hueSector (hue : ℚ) : ℚ :=
  if hue = 360 then clampDeg 0 else clampDeg (hue / 60)

/-- The sector index i = static_cast&lt;int&gt;(trunc(hue)) after normalisation. -/
def sectorIndex (hue : ℚ) : Int := qtrunc (hueSector hue)

/-- Whether the switch on the sector index dispatches to its default branch
(no case label 0..4 matches). -/
def sectorIsDefault (i : Int) : Bool :=
  !(i == 0 || i == 1 || i == 2 || i == 3 || i == 4)

/-- hsv2rgb from main.cpp: achromatic short-circuit, 360→0 wraparound,
sector dispatch, final unsigned-char casts of r*255, g*255, b*255. -/
def hsv2rgb (hsv : HSVColor) : RGBColor :=
  if hsv.saturation = 0 then
    { red := toByte hsv.value, green := toByte hsv.value, blue := toByte hsv.value }
  else
    let hue := hueSector hsv.hue
    let i : Int := qtrunc hue
    let f : ℚ := hue - (i : ℚ)
    let p := hsv.value * (1 - hsv.saturation)
    let q := hsv.value * (1 - hsv.saturation * f)
    let t := hsv.value * (1 - hsv.saturation * (1 - f))
    if i = 0 then { red := toByte hsv.value, green := toByte t, blue := toByte p }
    else if i = 1 then { red := toByte q, green := toByte hsv.value, blue := toByte p }
    else if i = 2 then { red := toByte p, green := toByte hsv.value, blue := toByte t }
    else if i = 3 then { red := toByte p, green := toByte q, blue := toByte hsv.value }
    else if i = 4 then { red := toByte t, green := toByte p, blue := toByte hsv.value }
    else { red := toByte hsv.value, green := toByte p, blue := toByte q }

/-- C6 counterexample: at saturation 0 and value 1/2 the code truncates
0.5*255 = 127.5 to 127, while round(0.5*255) = 128; the claimed rounding
does not hold. -/
theorem hsv2rgb_achromatic_not_round :
    (hsv2rgb (mkHSVColor 0 0 (1/2))).red ≠ (round ((1/2 : ℚ) * 255)).toNat ∧
    (hsv2rgb (mkHSVColor 0 0 (1/2))).red = 127 ∧
    (round ((1/2 : ℚ) * 255)).toNat = 128 := by
  have h1 : (hsv2rgb (mkHSVColor 0 0 (1/2))).red = 127 := by
    norm_num [hsv2rgb, mkHSVColor, clamp01, clampDeg, clampD, toByte, qtrunc] <;> decide
  have h2 : (round ((1/2 : ℚ) * 255)).toNat = 128 := by
    norm_num [round_eq] <;> decide
  exact ⟨by rw [h1, h2]; decide, h1, h2⟩

/-- C6 amended: with saturation 0 and value v in [0,1], hsv2rgb returns the
achromatic triple whose channels all equal trunc(v*255) — truncation toward
zero by the unsigned-char cast, not rounding. -/
theorem hsv2rgb_achromatic_truncates (h v : ℚ) (hv0 : 0 ≤ v) (hv1 : v ≤ 1) :
    (hsv2rgb (mkHSVColor h 0 v)).red = (qtrunc (v * 255)).toNat ∧
    (hsv2rgb (mkHSVColor h 0 v)).green = (qtrunc (v * 255)).toNat ∧
    (hsv2rgb (mkHSVColor h 0 v)).blue = (qtrunc (v * 255)).toNat := by
  have hs : clamp01 0 = 0 := by norm_num [clamp01, clampD]
  have hval : clamp01 v = v := by
    unfold clamp01 clampD
    rw [if_neg (not_lt.mpr hv0), if_neg (not_lt.mpr hv1)]
  simp [hsv2rgb, mkHSVColor, hs, hval, toByte]

/-- Witness for the amended C6 at hue 10 and value 1/2. -/
theorem hsv2rgb_achromatic_truncates_witness :
    (0 : ℚ) ≤ 1/2 ∧ (1/2 : ℚ) ≤ 1 ∧
    ((hsv2rgb (mkHSVColor 10 0 (1/2))).red = (qtrunc ((1/2 : ℚ) * 255)).toNat ∧
     (hsv2rgb (mkHSVColor 10 0 (1/2))).green = (qtrunc ((1/2 : ℚ) * 255)).toNat ∧
     (hsv2rgb (mkHSVColor 10 0 (1/2))).blue = (qtrunc ((1/2 : ℚ) * 255)).toNat) :=
  ⟨by norm_num, by norm_num,
    hsv2rgb_achromatic_truncates 10 (1/2) (by norm_num) (by norm_num)⟩

/-- C7: hue 360 and hue 0 produce the same RGB triple for the same
saturation and value in [0,1] (wraparound equivalence). -/
theorem hsv2rgb_hue360_eq_hue0 (s v : ℚ)
    (hs0 : 0 ≤ s) (hs1 : s ≤ 1) (hv0 : 0 ≤ v) (hv1 : v ≤ 1) :
    hsv2rgb (mkHSVColor 360 s v) = hsv2rgb (mkHSVColor 0 s v) := by
  have h360 : clampDeg 360 = 360 := by norm_num [clampDeg, clampD]
  have h0 : clampDeg 0 = 0 := by norm_num [clampDeg, clampD]
  have hsec360 : hueSector 360 = 0 := by
    unfold hueSector; rw [if_pos rfl, h0]
  have hsec0 : hueSector 0 = 0 := by
    unfold hueSector
    rw [if_neg (by norm_num), (by norm_num : (0 : ℚ) / 60 = 0), h0]
  simp only [hsv2rgb, mkHSVColor, h360, h0, hsec360, hsec0]

/-- Witness for C7 at saturation 1/2 and value 1/2. -/
theorem hsv2rgb_hue360_eq_hue0_witness :
    (0 : ℚ) ≤ 1/2 ∧ (1/2 : ℚ) ≤ 1 ∧
    hsv2rgb (mkHSVColor 360 (1/2) (1/2)) = hsv2rgb (mkHSVColor 0 (1/2) (1/2)) :=
  ⟨by norm_num, by norm_num,
    hsv2rgb_hue360_eq_hue0 (1/2) (1/2) (by norm_num) (by norm_num) (by norm_num) (by norm_num)⟩

/-! ## FunctionSampler: magnitude shading (main.cpp line 204) -/

/-- magnitude_shading as a function of m = abs(f(z(x,y))), a finite
non-NaN magnitude: 0.5 + 0.5 * (m - floor(m)). -/
def magnitude_shading (m : ℚ) : ℚ :=
  0.5 + 0.5 * (m - (⌊m⌋ : ℚ))

/-- C9: for every finite non-NaN magnitude m the sampler's saturation
0.5 + 0.5*(m - floor m) lies in [1/2, 1], is never 0, and therefore the
saturation field handed to hsv2rgb is nonzero: the achromatic branch's
guard saturation == 0 is false for such samples. -/
theorem magnitude_shading_bounds (m h v : ℚ) :
    1/2 ≤ magnitude_shading m ∧ magnitude_shading m ≤ 1 ∧
    magnitude_shading m ≠ 0 ∧
    (mkHSVColor h (magnitude_shading m) v).saturation ≠ 0 := by
  have hfr : magnitude_shading m = 0.5 + 0.5 * Int.fract m := rfl
  have h1 : 0 ≤ Int.fract m := Int.fract_nonneg m
  have h2 : Int.fract m < 1 := Int.fract_lt_one m
  have hlo : 1/2 ≤ magnitude_shading m := by rw [hfr]; linarith
  have hhi : magnitude_shading m ≤ 1 := by rw [hfr]; linarith
  refine ⟨hlo, hhi, by linarith, ?_⟩
  have hcl : (mkHSVColor h (magnitude_shading m) v).saturation = magnitude_shading m := by
    unfold mkHSVColor clamp01 clampD
    rw [if_neg (not_lt.mpr (by linarith)), if_neg (not_lt.mpr hhi)]
  rw [hcl]; linarith

/-- C10: for hue in [0,360] and positive saturation, the sector index
trunc(hue/60) after the 360→0 rewrite is in {0,...,5}, and the switch's
default branch is taken exactly when the index is 5. -/
theorem sectorIndex_range (hue s : ℚ) (h0 : 0 ≤ hue) (h1 : hue ≤ 360) (hs : 0 < s) :
    (0 ≤ sectorIndex hue ∧ sectorIndex hue ≤ 5) ∧
    (sectorIsDefault (sectorIndex hue) = true ↔ sectorIndex hue = 5) := by
  have hclamp0 : clampDeg 0 = 0 := by norm_num [clampDeg, clampD]
  have hrange : 0 ≤ sectorIndex hue ∧ sectorIndex hue ≤ 5 := by
    by_cases h360 : hue = 360
    · unfold sectorIndex hueSector
      rw [if_pos h360, hclamp0]
      unfold qtrunc
      norm_num
    · have hlt : hue < 360 := lt_of_le_of_ne h1 h360
      have hd0 : 0 ≤ hue / 60 := by positivity
      have hd6 : hue / 60 < 6 := by
        rw [div_lt_iff₀ (by norm_num : (0:ℚ) < 60)]
        linarith
      have hcl : clampDeg (hue / 60) = hue / 60 := by
        unfold clampDeg clampD
        rw [if_neg (not_lt.mpr hd0), if_neg (not_lt.mpr (by linarith))]
      unfold sectorIndex hueSector
      rw [if_neg h360, hcl]
      unfold qtrunc
      rw [if_pos hd0]
      constructor
      · exact Int.floor_nonneg.mpr hd0
      · have : ⌊hue / 60⌋ < 6 := Int.floor_lt.mpr (by exact_mod_cast hd6)
        omega

  refine ⟨hrange, ?_⟩
  obtain ⟨hge, hle⟩ := hrange
  generalize hgen : sectorIndex hue = i at hge hle ⊢
  interval_cases i <;> decide

/-- Witness for C10 at hue 330 and saturation 1. -/
theorem sectorIndex_range_witness :
    (0 : ℚ) ≤ 330 ∧ (330 : ℚ) ≤ 360 ∧ (0 : ℚ) < 1 ∧
    ((0 ≤ sectorIndex 330 ∧ sectorIndex 330 ≤ 5) ∧
     (sectorIsDefault (sectorIndex 330) = true ↔ sectorIndex 330 = 5)) :=
  ⟨by norm_num, by norm_num, by norm_num,
    sectorIndex_range 330 1 (by norm_num) (by norm_num) (by norm_num)⟩

/-! ## FunctionSampler: gridlines with the NaN/Inf guard (main.cpp lines 214-220)

The gridlines lambda computes a double that can be NaN or ±Inf (the
function output's components reW/imW can themselves be NaN/Inf at a pole
of f).  The Fl type models an IEEE double for exactly this distinction:
a finite value (idealised as an exact rational) or NaN/±Inf.  The
transcendental calls sin and pow are abstracted as arguments. -/

inductive Fl where
  | finite : ℚ → Fl
  | posInf : Fl
  | negInf : Fl
  | nan : Fl
deriving Repr, DecidableEq

/-- std::isnan. -/
def Fl.isNaN : Fl → Bool
  | nan => true
  | _ => false

/-- std::isinf. -/
def Fl.isInf : Fl → Bool
  | posInf => true
  | negInf => true
  | _ => false

/-- std::abs on doubles: abs(NaN) = NaN, abs(±Inf) = +Inf. -/
def Fl.fabs : Fl → Fl
  | finite q => finite |q|
  | posInf => posInf
  | negInf => posInf
  | nan => nan

/-- IEEE double multiplication on the Fl model: NaN propagates,
Inf * 0 = NaN, otherwise infinities keep the product's sign. -/
def Fl.fmul : Fl → Fl → Fl
  | nan, _ => nan
  | _, nan => nan
  | finite a, finite b => finite (a * b)
  | finite a, posInf => if a = 0 then nan else if a < 0 then negInf else posInf
  | finite a, negInf => if a = 0 then nan else if a < 0 then posInf else negInf
  | posInf, finite b => if b = 0 then nan else if b < 0 then negInf else posInf
  | negInf, finite b => if b = 0 then nan else if b < 0 then posInf else negInf
  | posInf, posInf => posInf
  | posInf, negInf => negInf
  | negInf, posInf => negInf
  | negInf, negInf => posInf

/-- auto const threshold = 0.1. -/
def threshold : Fl := Fl.finite (1/10)

/-- The local variable value of the gridlines lambda:
abs(pow(sin(reW * pi), threshold)) * pow(abs(sin(imW * pi)), threshold),
where reW = real_f(z(x,y)) and imW = imaginary_f(z(x,y)); sinD and powD
abstract the library sin and pow, piD abstracts M_PI. -/
def gridlinesValue (sinD : Fl → Fl) (powD : Fl → Fl → Fl) (piD reW imW : Fl) : Fl :=
  Fl.fmul (Fl.fabs (powD (sinD (Fl.fmul reW piD)) threshold))
    (powD (Fl.fabs (sinD (Fl.fmul imW piD))) threshold)

/-- The gridlines lambda: if (isnan(abs(value)) || isinf(abs(value)))
return 1.0; return value. -/
def gridlines (sinD : Fl → Fl) (powD : Fl → Fl → Fl) (piD reW imW : Fl) : Fl :=
  if (Fl.fabs (gridlinesValue sinD powD piD reW imW)).isNaN ||
      (Fl.fabs (gridlinesValue sinD powD piD reW imW)).isInf then
    Fl.finite 1
  else
    gridlinesValue sinD powD piD reW imW

/-- C1: whenever the gridlines expression evaluates to NaN or infinite, the
sampler substitutes the HSV value 1.0 instead of propagating the invalid
number, for every choice of sin/pow semantics and every sampled output. -/
theorem gridlines_degenerate_is_one
    (sinD : Fl → Fl) (powD : Fl → Fl → Fl) (piD reW imW : Fl)
    (hdeg : (gridlinesValue sinD powD piD reW imW).isNaN = true ∨
      (gridlinesValue sinD powD piD reW imW).isInf = true) :
    gridlines sinD powD piD reW imW = Fl.finite 1 := by
  unfold gridlines
  cases hv : gridlinesValue sinD powD piD reW imW with
  | finite q => rw [hv] at hdeg; simp [Fl.isNaN, Fl.isInf] at hdeg
  | posInf => rfl
  | negInf => rfl
  | nan => rfl

/-- Witness for C1 with sin/pow returning NaN (a pole): the raw expression
is NaN and the gridlines value is substituted by 1.0. -/
theorem gridlines_degenerate_is_one_witness :
    ((gridlinesValue (fun _ => Fl.nan) (fun _ _ => Fl.nan) Fl.nan Fl.nan Fl.nan).isNaN = true ∨
     (gridlinesValue (fun _ => Fl.nan) (fun _ _ => Fl.nan) Fl.nan Fl.nan Fl.nan).isInf = true) ∧
    gridlines (fun _ => Fl.nan) (fun _ _ => Fl.nan) Fl.nan Fl.nan Fl.nan = Fl.finite 1 :=
  ⟨Or.inl rfl,
    gridlines_degenerate_is_one (fun _ => Fl.nan) (fun _ _ => Fl.nan) Fl.nan Fl.nan Fl.nan
      (Or.inl rfl)⟩

/-! ## FunctionSampler: phase angle / hue (main.cpp lines 222-229)

main.cpp computes angleRadians = (M_PI + atan2(-y, -x)) / (2 * M_PI),
a fraction in (0, 1], and then multiplies by 180.0 / M_PI — a
radians-to-degrees conversion factor applied to a value that is not in
radians — before handing it to the degree-typed hue.  atan2D abstracts
std::atan2; its result lies in (-pi, pi]. -/

noncomputable def angle (atan2D : ℝ → ℝ → ℝ) (x y : ℝ) : ℝ :=
  ((Real.pi + atan2D (-y) (-x)) / (2 * Real.pi)) * (180 / Real.pi)

/-- Modelled from the spec for C2 (refinement comparison only): the hue the
claim asserts in the degrees convention, the phase fraction
(pi + atan2(-y, -x)) / (2*pi) multiplied by 360. -/
noncomputable def hueSpecDegrees (atan2D : ℝ → ℝ → ℝ) (x y : ℝ) : ℝ :=
  ((Real.pi + atan2D (-y) (-x)) / (2 * Real.pi)) * 360

/-- C2 divergence: for every sample whose atan2 result is in the range
(-pi, pi] of std::atan2, the hue main.cpp computes differs from the value
the claim asserts (the fraction scaled by 360): the code scales by
180/pi ≈ 57.3 instead, so the hue never spans the declared [0,360] domain. -/
theorem angle_ne_spec_degrees (atan2D : ℝ → ℝ → ℝ) (x y : ℝ)
    (hlo : -Real.pi < atan2D (-y) (-x)) (hhi : atan2D (-y) (-x) ≤ Real.pi) :
    angle atan2D x y ≠ hueSpecDegrees atan2D x y := by
  have hpi := Real.pi_gt_three
  set a := atan2D (-y) (-x) with ha
  have hfrac : 0 < (Real.pi + a) / (2 * Real.pi) := by
    apply div_pos <;> linarith
  intro heq
  unfold angle hueSpecDegrees at heq
  rw [← ha] at heq
  have h2 : (180 : ℝ) / Real.pi = 360 := mul_left_cancel₀ (ne_of_gt hfrac) heq
  have hpine : Real.pi ≠ 0 := by linarith
  rw [div_eq_iff hpine] at h2
  linarith

/-- Witness for C2 at the sample w = -1 + 0i (atan2(-0, 1) = 0): the code's
hue is not the claimed fraction-times-360. -/
theorem angle_ne_spec_degrees_witness :
    (-Real.pi < (fun _ _ => (0 : ℝ)) (-(0 : ℝ)) (-(-1 : ℝ)) ∧
      (fun _ _ => (0 : ℝ)) (-(0 : ℝ)) (-(-1 : ℝ)) ≤ Real.pi) ∧
    angle (fun _ _ => 0) (-1) 0 ≠ hueSpecDegrees (fun _ _ => 0) (-1) 0 :=
  ⟨⟨by simpa using Real.pi_pos, by simpa using le_of_lt Real.pi_pos⟩,
    angle_ne_spec_degrees (fun _ _ => 0) (-1) 0
      (by simpa using Real.pi_pos) (by simpa using le_of_lt Real.pi_pos)⟩

/-! ## Rasterizer (main.cpp: paint_complex, lines 234-253) -/

/-- auto const xExtent = xRange * 2. -/
def xExtentOf (xRange : ℚ) : ℚ := xRange * 2

/-- auto const yExtent = yRange * 2. -/
def yExtentOf (yRange : ℚ) : ℚ := yRange * 2

/-- xf = ((static_cast&lt;double&gt;(x) / w) - 0.5) * xExtent for pixel column
px of a canvas of width W. -/
def pixelPlaneX (W : Int) (xRange : ℚ) (px : Int) : ℚ :=
  ((px : ℚ) / (W : ℚ) - 0.5) * xExtentOf xRange

/-- yf = ((static_cast&lt;double&gt;(y) / h) - 0.5) * yExtent for pixel row py
of a canvas of height H. -/
def pixelPlaneY (H : Int) (yRange : ℚ) (py : Int) : ℚ :=
  ((py : ℚ) / (H : ℚ) - 0.5) * yExtentOf yRange

/-- paint_complex: the row-major double loop, writing colorize(xf, yf) at
each pixel of the canvas. -/
def paint_complex (canvas : RGBCanvas) (xRange yRange : ℚ)
    (colorize : ℚ → ℚ → RGBColor) : RGBCanvas :=
  (List.range canvas.size.height.toNat).foldl
    (fun c py =>
      (List.range canvas.size.width.toNat).foldl
        (fun c2 px =>
          c2.write ⟨px, py⟩
            (colorize (pixelPlaneX canvas.size.width xRange px)
              (pixelPlaneY canvas.size.height yRange py)))
        c)
    canvas

/-- Modelled from the spec for C8 (refinement comparison only):
xf = ((px / width) - 0.5) * x_extent with the extent a parameter. -/
def planeCoordSpec (extent : ℚ) (n px : Int) : ℚ :=
  ((px : ℚ) / (n : ℚ) - 0.5) * extent

/-- C8: the rasterizer maps pixel (px, py) of a W×H canvas to the
continuous coordinates of the spec formula with x_extent = 2*x_range and
y_extent = 2*y_range, and under that choice the plane coordinate reaches
-x_range at the left canvas edge (pixel column 0) and +x_range at the
right canvas edge (column coordinate W), and likewise ±y_range
vertically. -/
theorem pixel_plane_mapping (W H : Int) (xRange yRange : ℚ) (px py : Int)
    (hW : 0 < W) (hH : 0 < H) :
    pixelPlaneX W xRange px = planeCoordSpec (2 * xRange) W px ∧
    pixelPlaneY H yRange py = planeCoordSpec (2 * yRange) H py ∧
    pixelPlaneX W xRange 0 = -xRange ∧
    pixelPlaneX W xRange W = xRange ∧
    pixelPlaneY H yRange 0 = -yRange ∧
    pixelPlaneY H yRange H = yRange := by
  have hWne : ((W : ℚ)) ≠ 0 := Int.cast_ne_zero.mpr (by omega)
  have hHne : ((H : ℚ)) ≠ 0 := Int.cast_ne_zero.mpr (by omega)
  refine ⟨?_, ?_, ?_, ?_, ?_, ?_⟩
  · unfold pixelPlaneX planeCoordSpec xExtentOf; ring
  · unfold pixelPlaneY planeCoordSpec yExtentOf; ring
  · unfold pixelPlaneX xExtentOf; push_cast; ring
  · unfold pixelPlaneX xExtentOf; rw [div_self hWne]; ring
  · unfold pixelPlaneY yExtentOf; push_cast; ring
  · unfold pixelPlaneY yExtentOf; rw [div_self hHne]; ring

/-- Witness for C8 at a 2×2 canvas with ranges 1, pixel (1,1). -/
theorem pixel_plane_mapping_witness :
    (0 : Int) < 2 ∧
    (pixelPlaneX 2 1 1 = planeCoordSpec (2 * 1) 2 1 ∧
     pixelPlaneY 2 1 1 = planeCoordSpec (2 * 1) 2 1 ∧
     pixelPlaneX 2 1 0 = -1 ∧
     pixelPlaneX 2 1 2 = 1 ∧
     pixelPlaneY 2 1 0 = -1 ∧
     pixelPlaneY 2 1 2 = 1) :=
  ⟨by decide, pixel_plane_mapping 2 2 1 1 1 1 (by decide) (by decide)⟩

end Plotter
